import Mathlib

/-
  Verification of the AI-IDE editor host component.

  Shallow embedding of:
  - frontend/src/components/EnhancedMonacoEditor_Backup.jsx
    (language detection, editor lifecycle, debounced autosave, disposal)
  - frontend/src/components/EditorToolbar.jsx (toolbar language detection)

  Filenames are modelled as lists of characters so that the JavaScript
  string operations split / pop / toLowerCase can be reasoned about by
  induction.  External library behaviour (Monaco setModel possibly
  throwing, the persist operation resolving or rejecting) is modelled by
  explicit parameters; try/catch blocks in the source become total
  functions, and the error strings funnelled to setError are collected in
  an error channel list.
-/

/-
  Language detection, EnhancedMonacoEditor_Backup.jsx lines 6-38:
  `filename?.split('.').pop()?.toLowerCase()` looked up in a static table,
  falling back to 'plaintext'.
-/

/-- JavaScript `String.prototype.split('.')`: splits a character list at
every dot; splitting the empty string yields one empty field. -/
def splitOnDot : List Char → List (List Char)
  | [] => [[]]
  | c :: rest =>
    if c = '.' then [] :: splitOnDot rest
    else
      match splitOnDot rest with
      | [] => [[c]]
      | p :: ps => (c :: p) :: ps

/-- JavaScript `toLowerCase`, character by character. -/
def jsToLower (s : List Char) : List Char := s.map Char.toLower

/-- The source's `filename.split('.').pop()?.toLowerCase()`: the part
after the last dot, lower-cased. -/
def extOf (filename : List Char) : List Char :=
  jsToLower ((splitOnDot filename).getLastD [])

/-- The editor's static extension-to-language table (source lines 8-36). -/
def languageMap : List (List Char × String) := [
  ("js".data, "javascript"), ("jsx".data, "javascript"),
  ("ts".data, "typescript"), ("tsx".data, "typescript"),
  ("py".data, "python"), ("html".data, "html"), ("htm".data, "html"),
  ("css".data, "css"), ("scss".data, "scss"), ("sass".data, "sass"),
  ("json".data, "json"), ("md".data, "markdown"), ("txt".data, "plaintext"),
  ("xml".data, "xml"), ("yml".data, "yaml"), ("yaml".data, "yaml"),
  ("sh".data, "shell"), ("bash".data, "shell"), ("sql".data, "sql"),
  ("php".data, "php"), ("java".data, "java"), ("cpp".data, "cpp"),
  ("c".data, "c"), ("cs".data, "csharp"), ("go".data, "go"),
  ("rs".data, "rust"), ("rb".data, "ruby")]

/-- The editor's `getLanguageFromExtension` (source lines 6-38).  A missing filename
(the `?.` chain short-circuiting) also falls back to 'plaintext'. -/
def getLanguageFromExtension : Option (List Char) → String
  | none => "plaintext"
  | some f => (List.lookup (extOf f) languageMap).getD "plaintext"

/-
  Toolbar language detection, EditorToolbar.jsx lines 19-52.
-/

/-- The part of a project file the toolbar's detector reads: the `name`
property, which may be absent. -/
structure ToolbarFile where
  name : Option (List Char)
  deriving DecidableEq

/-- The toolbar's own extension-to-language table (EditorToolbar.jsx
lines 22-50); note it is distinct from the editor's table. -/
def toolbarLanguageMap : List (List Char × String) := [
  ("js".data, "javascript"), ("jsx".data, "javascript"), ("mjs".data, "javascript"),
  ("ts".data, "typescript"), ("tsx".data, "typescript"),
  ("py".data, "python"), ("pyx".data, "python"), ("pyi".data, "python"),
  ("java".data, "java"), ("class".data, "java"),
  ("c".data, "c"), ("h".data, "c"),
  ("cpp".data, "cpp"), ("cc".data, "cpp"), ("cxx".data, "cpp"),
  ("cs".data, "csharp"), ("go".data, "go"), ("rs".data, "rust"),
  ("rb".data, "ruby"), ("php".data, "php"), ("pl".data, "perl"),
  ("lua".data, "lua"), ("swift".data, "swift"),
  ("kt".data, "kotlin"), ("kts".data, "kotlin"),
  ("scala".data, "scala"), ("sc".data, "scala"),
  ("r".data, "r"), ("R".data, "r"),
  ("ex".data, "elixir"), ("exs".data, "elixir"), ("erl".data, "erlang"),
  ("hs".data, "haskell"), ("lhs".data, "haskell"),
  ("dart".data, "dart"), ("groovy".data, "groovy"),
  ("sh".data, "bash"), ("bash".data, "bash"),
  ("html".data, "html"), ("htm".data, "html"),
  ("css".data, "css"), ("svg".data, "svg"), ("xml".data, "xml")]

/-- The toolbar's `getLanguageFromFile` (EditorToolbar.jsx lines 19-52).  `!file?.name`
is JavaScript truthiness: a missing file, a missing name, and the empty
name all return 'javascript'; so does an unmatched extension. -/
def getLanguageFromFile : Option ToolbarFile → String
  | none => "javascript"
  | some f =>
    match f.name with
    | none => "javascript"
    | some [] => "javascript"
    | some nm => (List.lookup (extOf nm) toolbarLanguageMap).getD "javascript"

/-
  Editor Host data model.  The React component's refs and state
  (editorRef, modelRef, saveTimeoutRef, isDisposedRef, editorState,
  setError sink) become fields of `HostState`; the persist calls made to
  `saveFileContent` are recorded in `persistLog` as
  (time, fileId, content) triples.
-/

/-- The external current file (ProjectContext): `currentFile.id`,
`currentFile.metadata?.name`, `currentFile.content`. -/
structure FileRec where
  id : String
  name : Option (List Char)
  content : Option String
  deriving DecidableEq

/-- A Monaco text model: one in-memory buffer with a language tag and a
disposed flag. -/
structure TextModel where
  content : String
  language : String
  disposed : Bool
  deriving DecidableEq

/-- The Monaco editor instance created by `monaco.editor.create`:
its visible buffer value, creation-time theme and font size, the id of
the attached model (if any), and a disposed flag. -/
structure EditorSession where
  value : String
  theme : String
  fontSize : Nat
  attachedModel : Option Nat
  disposed : Bool
  deriving DecidableEq

/-- Component props that drive autosave: `autoSave` and `autoSaveDelay`
(milliseconds). -/
structure Config where
  autoSave : Bool
  autoSaveDelay : Nat
  deriving DecidableEq

/-- The whole Editor Host: refs, UI state, error channel and the log of
persist calls issued to the external `saveFileContent`. -/
structure HostState where
  editor : Option EditorSession
  models : List TextModel
  modelRef : Option Nat
  pendingSave : Option (Nat × String)
  isDisposed : Bool
  isLoading : Bool
  hasUnsavedChanges : Bool
  language : String
  errors : List String
  persistLog : List (Nat × String × String)
  deriving DecidableEq

/-- The Monaco-level `dispose()` on a model: the library call that
`safeDispose` wraps.  Calling it on an already-disposed resource is the
error case the source's try/catch exists for. -/
def rawDisposeModel (m : TextModel) : Except String TextModel :=
  if m.disposed then .error "TextModel already disposed"
  else .ok { m with disposed := true }

/-- The source's `safeDispose` (lines 69-83) applied to a model reference:
a missing resource is ignored, a throwing `dispose()` is caught and
swallowed, so the call never raises. -/
def safeDisposeModel : Option TextModel → Option TextModel
  | none => none
  | some m =>
    match rawDisposeModel m with
    | .ok m' => some m'
    | .error _ => some m

/-- Monaco-level `dispose()` on an editor session. -/
def rawDisposeSession (e : EditorSession) : Except String EditorSession :=
  if e.disposed then .error "EditorSession already disposed"
  else .ok { e with disposed := true }

/-- The source's `safeDispose` applied to an editor-session reference. -/
def safeDisposeSession : Option EditorSession → Option EditorSession
  | none => none
  | some e =>
    match rawDisposeSession e with
    | .ok e' => some e'
    | .error _ => some e

/-- Mark the model at index `i` of the arena disposed (the net effect of
`safeDispose(modelRef.current)` on the model it points at). -/
def disposeAt : List TextModel → Nat → List TextModel
  | [], _ => []
  | m :: ms, 0 => { m with disposed := true } :: ms
  | m :: ms, n + 1 => m :: disposeAt ms n

/-- Theme-name selection at editor creation (source line 176) and in the
in-place theme effect (line 331). -/
def themeName (theme : String) : String :=
  if theme = "light" then "ai-ide-light" else "ai-ide-dark"

/-- The call `monaco.editor.create` (source lines 173-233): a fresh surface with
value `''` and no attached model. -/
def newSession (theme : String) (fontSize : Nat) : EditorSession :=
  { value := "", theme := themeName theme, fontSize := fontSize,
    attachedModel := none, disposed := false }

/-- The component before its first mount. -/
def emptyHost : HostState :=
  { editor := none, models := [], modelRef := none, pendingSave := none,
    isDisposed := false, isLoading := false, hasUnsavedChanges := false,
    language := "javascript", errors := [], persistLog := [] }

/-- The editor-creation effect body (source lines 128-251): the guard at
line 129 returns early when the disposal flag is set; only then is the
flag reset (line 132) and a fresh editor created. -/
def creationEffect (theme : String) (fontSize : Nat) (s : HostState) : HostState :=
  if s.isDisposed then s
  else { s with isDisposed := false, editor := some (newSession theme fontSize) }

/-- The creation effect's cleanup (source lines 253-269): sets the
disposal flag, disposes the editor via `safeDispose` (the reference is
then nulled, so the session is dropped), and clears the save timeout. -/
def creationCleanup (s : HostState) : HostState :=
  { s with isDisposed := true, editor := none, pendingSave := none }

/-- The in-place theme effect (source lines 329-333). -/
def inPlaceTheme (theme : String) (s : HostState) : HostState :=
  match s.editor with
  | none => s
  | some e => { s with editor := some { e with theme := themeName theme } }

/-- The in-place font-size effect (source lines 336-340). -/
def inPlaceFontSize (n : Nat) (s : HostState) : HostState :=
  match s.editor with
  | none => s
  | some e => { s with editor := some { e with fontSize := n } }

/-- A reconfiguration that changes theme or fontSize: React re-runs the
creation effect (cleanup, then body) because both are in its dependency
array, and then runs the two in-place update effects. -/
def reconfigure (theme : String) (fontSize : Nat) (s : HostState) : HostState :=
  inPlaceFontSize fontSize (inPlaceTheme theme
    (creationEffect theme fontSize (creationCleanup s)))

/-- The mounted component with default props. -/
def initState : HostState := creationEffect "vs-dark" 14 emptyHost

/-- First half of the load effect's main path (source lines 288-292):
dispose the previous model, if any, before creating the new one. -/
def disposePrevPhase (s : HostState) : HostState :=
  match s.modelRef with
  | none => s
  | some i => { s with models := disposeAt s.models i, modelRef := none }

/-- A keystroke-level edit at time `t` setting the buffer to `c`, then
the `onDidChangeModelContent` listener (source lines 236-243): mark
unsaved changes and, when autosave is on, `debouncedSave` (lines 96-112)
clears any pending timeout and schedules a persist of `c` after the
configured delay. -/
def contentChange (cfg : Config) (t : Nat) (c : String) (s : HostState) : HostState :=
  match s.editor with
  | none => s
  | some e =>
    let s1 := { s with editor := some { e with value := c }, hasUnsavedChanges := true }
    if cfg.autoSave then { s1 with pendingSave := some (t + cfg.autoSaveDelay, c) } else s1

/-- One run of the load effect's body (source lines 273-326), at time
`t`.  `setModelFails` models the library-level `editor.setModel`
throwing; the inner catch (lines 305-308) logs a console warning and
returns, skipping the `setEditorState` that would clear `isLoading`.
In the null-file branch, `editorRef.current.setValue('')` replaces the
buffer text and synchronously fires `onDidChangeModelContent`, whose
listener marks unsaved changes and (with autosave on) schedules a
debounced persist of the now-empty content; only then is the language
reset.  Note this is the effect body alone: a later change of the
external `currentFile` also re-runs the creation effect first — see
`currentFileChange`. -/
def loadFile (cfg : Config) (t : Nat) (file : Option FileRec) (setModelFails : Bool)
    (s : HostState) : HostState :=
  match s.editor, file with
  | none, _ => s
  | some _, none => { contentChange cfg t "" s with language := "javascript" }
  | some _, some f =>
    if s.isDisposed then s
    else
      let lang := getLanguageFromExtension f.name
      let s1 := { s with isLoading := true }
      let s2 := disposePrevPhase s1
      let idx := s2.models.length
      let newModel : TextModel :=
        { content := f.content.getD "", language := lang, disposed := false }
      let s3 := { s2 with models := s2.models ++ [newModel], modelRef := some idx }
      if setModelFails then s3
      else
        match s3.editor with
        | none => s3
        | some e' =>
          { s3 with
              editor := some { e' with value := newModel.content, attachedModel := some idx },
              isLoading := false, language := lang, hasUnsavedChanges := false }

/-- Reaction of the mounted component to a later change of the external
`currentFile`.  `handleSave` and `debouncedSave` capture `currentFile`
(useCallback deps, lines 112 and 125) and both sit in the creation
effect's dependency array (line 270), so a `currentFile` change re-runs
the creation effect — cleanup first, then the guarded body — before the
load effect body runs. -/
def currentFileChange (cfg : Config) (theme : String) (fontSize : Nat) (t : Nat)
    (file : Option FileRec) (setModelFails : Bool) (s : HostState) : HostState :=
  loadFile cfg t file setModelFails
    (creationEffect theme fontSize (creationCleanup s))

/-- The debounced timeout firing (source lines 101-111): if a file is
current and autosave is on, call `saveFileContent` with the captured
content; on resolution clear `hasUnsavedChanges`, on rejection report
`Auto-save failed: ...` to the error channel and change nothing else. -/
def fireAutoSave (r : Except String Unit) (cfg : Config) (file : Option FileRec)
    (s : HostState) : HostState :=
  match s.pendingSave with
  | none => s
  | some (ft, c) =>
    let s1 := { s with pendingSave := none }
    match file, cfg.autoSave with
    | some f, true =>
      (match r with
       | .ok _ =>
         { s1 with persistLog := s1.persistLog ++ [(ft, f.id, c)], hasUnsavedChanges := false }
       | .error msg =>
         { s1 with persistLog := s1.persistLog ++ [(ft, f.id, c)],
                   errors := s1.errors ++ ["Auto-save failed: " ++ msg] })
    | _, _ => s1

/-- Manual save `handleSave` at time `t` (source lines 115-125): persist
the current editor value immediately; on rejection report
`Save failed: ...`; the pending debounce timeout is not touched. -/
def handleSave (r : Except String Unit) (t : Nat) (file : Option FileRec)
    (s : HostState) : HostState :=
  match file, s.editor with
  | some f, some e =>
    (match r with
     | .ok _ =>
       { s with persistLog := s.persistLog ++ [(t, f.id, e.value)], hasUnsavedChanges := false }
     | .error msg =>
       { s with persistLog := s.persistLog ++ [(t, f.id, e.value)],
                errors := s.errors ++ ["Save failed: " ++ msg] })
  | _, _ => s

/-- Unmount teardown: the creation effect's cleanup (lines 253-269, sets
the disposal flag, safe-disposes the editor, clears the timeout) followed
by the unmount cleanup (lines 343-357, safe-disposes the model behind
`modelRef` and nulls the refs). -/
def teardown (s : HostState) : HostState :=
  let s1 := { s with isDisposed := true, editor := none, pendingSave := none }
  match s1.modelRef with
  | none => s1
  | some i => { s1 with models := disposeAt s1.models i, modelRef := none }

/-- The buffer text currently shown by the editing surface. -/
def hostValue (s : HostState) : String :=
  match s.editor with
  | some e => e.value
  | none => ""

/-- The staleness invariant for claim C9: the editor is live and any
pending debounced persist carries exactly the current buffer value. -/
def Jinv (s : HostState) : Bool :=
  s.editor.isSome &&
    (match s.pendingSave with
     | none => true
     | some (_, c) => hostValue s == c)

/-- The events of the save/edit loop: an edit, a manual save (with the
persist outcome), and the debounce timer firing (with the persist
outcome). -/
inductive Ev where
  | change (t : Nat) (c : String)
  | save (t : Nat) (r : Except String Unit)
  | fire (r : Except String Unit)

/-- One event step of the mounted component. -/
def stepEv (cfg : Config) (file : Option FileRec) (s : HostState) : Ev → HostState
  | .change t c => contentChange cfg t c s
  | .save t r => handleSave r t file s
  | .fire r => fireAutoSave r cfg file s

/-- A whole event sequence. -/
def runEv (cfg : Config) (file : Option FileRec) (s : HostState) (evs : List Ev) : HostState :=
  evs.foldl (stepEv cfg file) s

/-- A sequence of load-effect runs (each with its time, file-or-null,
and whether the library-level attach fails). -/
def applyLoads (cfg : Config) (ops : List (Nat × Option FileRec × Bool))
    (s : HostState) : HostState :=
  ops.foldl (fun st op => loadFile cfg op.1 op.2.1 op.2.2 st) s

/-- Number of not-yet-disposed models. -/
def liveCount (s : HostState) : Nat :=
  (s.models.filter (fun m => !m.disposed)).length

/-- Ownership invariant for claim C6: every live model in the arena is
the one `modelRef` points at. -/
def InvHost (s : HostState) : Prop :=
  ∀ i m, s.models[i]? = some m → m.disposed = false → s.modelRef = some i

/-
  Concrete states used by the scenario witnesses.
-/

/-- The spec's scenario configuration: autoSave on, delay 2000 ms. -/
def cfg2 : Config := { autoSave := true, autoSaveDelay := 2000 }

/-- The spec's scenario file {id: f1, content: a}. -/
def fileF1 : FileRec := { id := "f1", name := none, content := some "a" }

/-- A file whose name has a supported extension in mixed case. -/
def fileMainJS : FileRec := { id := "m", name := some "Main.JS".data, content := some "x" }

/-- A file whose extension is in neither table. -/
def fileNoExt : FileRec := { id := "n", name := some "notes.zzz".data, content := some "y" }

/-- A second file, used when a load replaces `fileF1`. -/
def fileB : FileRec := { id := "f2", name := some "b.py".data, content := some "print(1)" }

/-- Mounted component with `fileF1` loaded: at mount the creation effect
body runs first, then the load effect sees `fileF1` already current. -/
def sLoaded : HostState := loadFile cfg2 0 (some fileF1) false initState

/-- The editor session of `sLoaded`. -/
def eLoaded : EditorSession :=
  { value := "a", theme := "ai-ide-dark", fontSize := 14,
    attachedModel := some 0, disposed := false }

/-- State `sLoaded` after content changes to `ab` at t=0 and `abc` at t=500. -/
def sChanged : HostState :=
  contentChange cfg2 500 "abc" (contentChange cfg2 0 "ab" sLoaded)

/-- State `sLoaded` after one unsaved edit to `abc` at t=0. -/
def sUnsaved : HostState := contentChange cfg2 0 "abc" sLoaded

/-- Mounted component with `fileB` (b.py) loaded, so the detected
language is 'python'. -/
def sLoadedB : HostState := loadFile cfg2 0 (some fileB) false initState

/-- An already-disposed model, for the idempotent-disposal witnesses. -/
def mDead : TextModel := { content := "x", language := "plaintext", disposed := true }

/-
  Helper lemmas about splitOnDot / extOf.
-/

theorem splitOnDot_ne_nil (l : List Char) : splitOnDot l ≠ [] := by
  induction l with
  | nil => simp [splitOnDot]
  | cons c rest ih =>
    by_cases hc : c = '.'
    · simp [splitOnDot, hc]
    · simp only [splitOnDot, if_neg hc]
      cases h : splitOnDot rest with
      | nil => simp
      | cons p ps => simp

theorem splitOnDot_no_dot (l : List Char) (h : ('.' : Char) ∉ l) : splitOnDot l = [l] := by
  induction l with
  | nil => simp [splitOnDot]
  | cons c rest ih =>
    have hc : c ≠ '.' := fun hcc => h (hcc ▸ List.mem_cons_self c rest)
    have hr : ('.' : Char) ∉ rest := fun hm => h (List.mem_cons_of_mem _ hm)
    simp [splitOnDot, hc, ih hr]

theorem splitOnDot_len_two (l : List Char) (h : ('.' : Char) ∈ l) :
    2 ≤ (splitOnDot l).length := by
  induction l with
  | nil => cases h
  | cons c rest ih =>
    by_cases hc : c = '.'
    · have hne := splitOnDot_ne_nil rest
      simp only [splitOnDot, if_pos hc, List.length_cons]
      exact Nat.succ_le_succ (List.length_pos.mpr hne)
    · have hr : ('.' : Char) ∈ rest := by
        rcases List.mem_cons.mp h with h0 | h0
        · exact absurd h0.symm hc
        · exact h0
      simp only [splitOnDot, if_neg hc]
      cases hsp : splitOnDot rest with
      | nil => exact absurd hsp (splitOnDot_ne_nil rest)
      | cons p ps =>
        have := ih hr
        rw [hsp] at this
        simpa using this

theorem getLastD_irrel {α : Type} (l : List α) (hne : l ≠ []) (d₁ d₂ : α) :
    l.getLastD d₁ = l.getLastD d₂ := by
  cases l with
  | nil => exact absurd rfl hne
  | cons x xs =>
    simp [List.getLastD_cons, List.getLast?_eq_getLast (x :: xs) (by simp)]

theorem splitOnDot_append (base ext : List Char) :
    (splitOnDot (base ++ '.' :: ext)).getLastD [] = (splitOnDot ext).getLastD [] := by
  induction base with
  | nil =>
    simp only [List.nil_append, splitOnDot, if_pos rfl]
    cases hsp : splitOnDot ext with
    | nil => exact absurd hsp (splitOnDot_ne_nil ext)
    | cons p ps => simp [List.getLastD_cons, List.getLast?_cons_cons]
  | cons c cs ih =>
    by_cases hc : c = '.'
    · subst hc
      simp only [List.cons_append, splitOnDot, if_pos rfl]
      cases hsp : splitOnDot (cs ++ '.' :: ext) with
      | nil => exact absurd hsp (splitOnDot_ne_nil _)
      | cons p ps =>
        rw [hsp] at ih
        simpa [List.getLastD_cons, List.getLast?_cons_cons] using ih
    · have hmem : ('.' : Char) ∈ cs ++ '.' :: ext := by simp
      have h2 := splitOnDot_len_two _ hmem
      simp only [List.cons_append, splitOnDot, if_neg hc]
      cases hsp : splitOnDot (cs ++ '.' :: ext) with
      | nil => exact absurd hsp (splitOnDot_ne_nil _)
      | cons p ps =>
        rw [hsp] at ih h2
        cases ps with
        | nil => simp at h2
        | cons q qs =>
          simpa [List.getLastD_cons, List.getLast?_cons_cons] using ih

theorem extOf_append (base ext : List Char) (h : ('.' : Char) ∉ ext) :
    extOf (base ++ '.' :: ext) = jsToLower ext := by
  unfold extOf
  rw [splitOnDot_append, splitOnDot_no_dot ext h]
  simp [List.getLastD_cons]

theorem lookup_no_dot (t : List (List Char × String))
    (hall : ∀ p ∈ t, ('.' : Char) ∉ p.1) (k : List Char) (v : String)
    (h : List.lookup k t = some v) : ('.' : Char) ∉ k := by
  induction t with
  | nil => simp [List.lookup] at h
  | cons p ps ih =>
    obtain ⟨a, b⟩ := p
    rw [List.lookup] at h
    cases hba : (k == a) with
    | true =>
      have : k = a := eq_of_beq hba
      subst this
      exact hall (k, b) (List.mem_cons_self _ _)
    | false =>
      rw [hba] at h
      exact ih (fun q hq => hall q (List.mem_cons_of_mem _ hq)) h

theorem dot_mem_jsToLower {ext : List Char} (h : ('.' : Char) ∈ ext) :
    ('.' : Char) ∈ jsToLower ext := by
  have hd : ('.' : Char).toLower = '.' := by decide
  simpa [jsToLower, hd] using List.mem_map_of_mem Char.toLower h

theorem languageMap_keys_no_dot : ∀ p ∈ languageMap, ('.' : Char) ∉ p.1 := by decide

theorem loadFile_language_eq (cfg : Config) (t : Nat) (s : HostState)
    (e : EditorSession) (f : FileRec)
    (hed : s.editor = some e) (hdisp : s.isDisposed = false) :
    (loadFile cfg t (some f) false s).language = getLanguageFromExtension f.name := by
  obtain ⟨ed, ms, mr, ps, dis, ld, un, lang, errs, plog⟩ := s
  simp only at hed hdisp
  subst hed hdisp
  cases mr <;> simp [loadFile, disposePrevPhase]

/-- C1: `LoadFile` on a file whose name ends in a (case-insensitively)
supported extension sets the detected language to the mapped language;
a file whose lower-cased extension is not in the table gets 'plaintext'.
The hypothesis `List.lookup (jsToLower ext) languageMap = some L` says
exactly that the lower-casing of the name's final extension is a
supported extension mapped to `L`, whatever the original letter case. -/
theorem loadFile_detects_language (cfg : Config) (t : Nat) (s : HostState)
    (e : EditorSession) (f : FileRec)
    (hed : s.editor = some e) (hdisp : s.isDisposed = false) :
    (∀ base ext L, f.name = some (base ++ '.' :: ext) →
        List.lookup (jsToLower ext) languageMap = some L →
        (loadFile cfg t (some f) false s).language = L)
    ∧ (∀ nm, f.name = some nm →
        List.lookup (extOf nm) languageMap = none →
        (loadFile cfg t (some f) false s).language = "plaintext") := by
  have hlang := loadFile_language_eq cfg t s e f hed hdisp
  constructor
  · intro base ext L hname hlk
    have hnd : ('.' : Char) ∉ ext := fun hm =>
      lookup_no_dot languageMap languageMap_keys_no_dot _ _ hlk (dot_mem_jsToLower hm)
    rw [hlang, hname]
    simp [getLanguageFromExtension, extOf_append base ext hnd, hlk]
  · intro nm hname hlk
    rw [hlang, hname]
    simp [getLanguageFromExtension, hlk]

/-- Witness for C1: loading `Main.JS` detects 'javascript' despite the
upper-case extension; loading `notes.zzz` falls back to 'plaintext'. -/
theorem loadFile_detects_language_witness :
    (initState.editor = some (newSession "vs-dark" 14) ∧ initState.isDisposed = false
      ∧ fileMainJS.name = some ("Main".data ++ '.' :: "JS".data)
      ∧ List.lookup (jsToLower "JS".data) languageMap = some "javascript"
      ∧ List.lookup (extOf "notes.zzz".data) languageMap = none)
    ∧ (loadFile cfg2 0 (some fileMainJS) false initState).language = "javascript"
    ∧ (loadFile cfg2 0 (some fileNoExt) false initState).language = "plaintext" := by
  refine ⟨by decide, ?_, ?_⟩
  · exact (loadFile_detects_language cfg2 0 initState (newSession "vs-dark" 14) fileMainJS
      (by decide) (by decide)).1 "Main".data "JS".data "javascript" (by decide) (by decide)
  · exact (loadFile_detects_language cfg2 0 initState (newSession "vs-dark" 14) fileNoExt
      (by decide) (by decide)).2 "notes.zzz".data (by decide) (by decide)

/-- C10: the toolbar's `getLanguageFromFile` is total and returns
'javascript' (not the editor detector's 'plaintext') for a missing file,
a file without a name, and any unmatched extension. -/
theorem toolbar_language_defaults (f : ToolbarFile) (nm : List Char) :
    getLanguageFromFile none = "javascript"
    ∧ (f.name = none → getLanguageFromFile (some f) = "javascript")
    ∧ (f.name = some nm → List.lookup (extOf nm) toolbarLanguageMap = none →
        getLanguageFromFile (some f) = "javascript")
    ∧ "javascript" ≠ "plaintext" := by
  refine ⟨rfl, ?_, ?_, by decide⟩
  · intro h
    simp [getLanguageFromFile, h]
  · intro h hlk
    cases nm with
    | nil => simp [getLanguageFromFile, h]
    | cons c cs => simp [getLanguageFromFile, h, hlk]

/-- Witness for C10: a null file, a nameless file and a `.nim` file all
map to 'javascript' in the toolbar. -/
theorem toolbar_language_defaults_witness :
    ((ToolbarFile.mk none).name = none
      ∧ (ToolbarFile.mk (some "a.nim".data)).name = some "a.nim".data
      ∧ List.lookup (extOf "a.nim".data) toolbarLanguageMap = none)
    ∧ getLanguageFromFile none = "javascript"
    ∧ getLanguageFromFile (some (ToolbarFile.mk none)) = "javascript"
    ∧ getLanguageFromFile (some (ToolbarFile.mk (some "a.nim".data))) = "javascript" := by
  refine ⟨by decide, ?_, ?_, ?_⟩
  · exact (toolbar_language_defaults (ToolbarFile.mk none) []).1
  · exact (toolbar_language_defaults (ToolbarFile.mk none) []).2.1 rfl
  · exact (toolbar_language_defaults (ToolbarFile.mk (some "a.nim".data))
      "a.nim".data).2.2.1 rfl (by decide)

/-- C2: with autosave on, two content changes inside one debounce window
leave exactly one scheduled persist, carrying the second event's content
and timed at `t2 + delay` (which is at least the delay after the second
event and strictly later than `t1 + delay`, the cancelled first
schedule); when that timeout fires, exactly one persist call is appended
to the log, namely `(t2 + delay, file.id, c2)`, whether the external
persist resolves or rejects. -/
theorem debounce_last_write_wins (cfg : Config) (f : FileRec) (s : HostState)
    (e : EditorSession) (t1 t2 : Nat) (c1 c2 : String)
    (hauto : cfg.autoSave = true) (hed : s.editor = some e)
    (h12 : t1 < t2) (hwin : t2 < t1 + cfg.autoSaveDelay) :
    (contentChange cfg t2 c2 (contentChange cfg t1 c1 s)).pendingSave
        = some (t2 + cfg.autoSaveDelay, c2)
    ∧ (contentChange cfg t2 c2 (contentChange cfg t1 c1 s)).persistLog = s.persistLog
    ∧ (∀ r, (fireAutoSave r cfg (some f)
          (contentChange cfg t2 c2 (contentChange cfg t1 c1 s))).persistLog
        = s.persistLog ++ [(t2 + cfg.autoSaveDelay, f.id, c2)])
    ∧ t1 + cfg.autoSaveDelay < t2 + cfg.autoSaveDelay := by
  obtain ⟨ed, ms, mr, ps, dis, ld, un, lang, errs, plog⟩ := s
  simp only at hed
  subst hed
  refine ⟨by simp [contentChange, hauto], by simp [contentChange, hauto], ?_, by omega⟩
  intro r
  cases r <;> simp [contentChange, hauto, fireAutoSave]

/-- Witness for C2: the spec scenario.  Changes to `ab` at t=0 and `abc`
at t=500 with delay 2000 leave one pending persist at t=2500 with
content `abc`; firing it logs exactly one call `(2500, f1, abc)`; 2500 is
strictly after the cancelled schedule at 2000. -/
theorem debounce_last_write_wins_witness :
    (cfg2.autoSave = true ∧ sLoaded.editor = some eLoaded
      ∧ (0 : Nat) < 500 ∧ (500 : Nat) < 0 + cfg2.autoSaveDelay)
    ∧ sChanged.pendingSave = some (2500, "abc")
    ∧ sChanged.persistLog = []
    ∧ (fireAutoSave (.ok ()) cfg2 (some fileF1) sChanged).persistLog
        = [(2500, "f1", "abc")]
    ∧ (2000 : Nat) < 2500 := by
  have h := debounce_last_write_wins cfg2 fileF1 sLoaded eLoaded 0 500 "ab" "abc"
    rfl (by decide) (by decide) (by decide)
  refine ⟨⟨rfl, by decide, by decide, by decide⟩, ?_, ?_, ?_, by decide⟩
  · rw [show sChanged = contentChange cfg2 500 "abc" (contentChange cfg2 0 "ab" sLoaded) from rfl, h.1]
    decide
  · rw [show sChanged = contentChange cfg2 500 "abc" (contentChange cfg2 0 "ab" sLoaded) from rfl, h.2.1]
    decide
  · rw [show sChanged = contentChange cfg2 500 "abc" (contentChange cfg2 0 "ab" sLoaded) from rfl,
      h.2.2.1 (.ok ())]
    decide

/-- C4: when the external persist rejects with `msg`, the error channel
receives a message containing `msg` (`Auto-save failed: msg` for the
debounced path, `Save failed: msg` for manual save), `hasUnsavedChanges`
is left exactly as it was (so it remains true after an edit), exactly one
persist attempt is logged with nothing rescheduled, and — the transition
being a total function — no exception escapes the component. -/
theorem persist_failure_surfaced (cfg : Config) (f : FileRec) (s : HostState)
    (msg : String) (ft : Nat) (c : String)
    (hauto : cfg.autoSave = true) (hpend : s.pendingSave = some (ft, c)) :
    ((fireAutoSave (.error msg) cfg (some f) s).errors
        = s.errors ++ ["Auto-save failed: " ++ msg]
      ∧ (∃ pre post, ("Auto-save failed: " ++ msg).data = pre ++ msg.data ++ post)
      ∧ (fireAutoSave (.error msg) cfg (some f) s).hasUnsavedChanges = s.hasUnsavedChanges
      ∧ (fireAutoSave (.error msg) cfg (some f) s).persistLog
          = s.persistLog ++ [(ft, f.id, c)]
      ∧ (fireAutoSave (.error msg) cfg (some f) s).pendingSave = none)
    ∧ (∀ e t, s.editor = some e →
        (handleSave (.error msg) t (some f) s).errors
            = s.errors ++ ["Save failed: " ++ msg]
        ∧ (∃ pre post, ("Save failed: " ++ msg).data = pre ++ msg.data ++ post)
        ∧ (handleSave (.error msg) t (some f) s).hasUnsavedChanges = s.hasUnsavedChanges
        ∧ (handleSave (.error msg) t (some f) s).persistLog
            = s.persistLog ++ [(t, f.id, e.value)]
        ∧ (handleSave (.error msg) t (some f) s).pendingSave = s.pendingSave) := by
  obtain ⟨ed, ms, mr, ps, dis, ld, un, lang, errs, plog⟩ := s
  simp only at hpend
  subst hpend
  constructor
  · refine ⟨by simp [fireAutoSave, hauto], ⟨"Auto-save failed: ".data, [], ?_⟩,
      by simp [fireAutoSave, hauto], by simp [fireAutoSave, hauto],
      by simp [fireAutoSave, hauto]⟩
    simp
  · intro e t hed
    simp only at hed
    subst hed
    refine ⟨by simp [handleSave], ⟨"Save failed: ".data, [], ?_⟩,
      by simp [handleSave], by simp [handleSave], by simp [handleSave]⟩
    simp

/-- Witness for C4: the spec scenario.  Persist rejecting with `network
error` puts `Auto-save failed: network error` on the error channel and
leaves `hasUnsavedChanges` true. -/
theorem persist_failure_surfaced_witness :
    (cfg2.autoSave = true ∧ sChanged.pendingSave = some (2500, "abc")
      ∧ sChanged.hasUnsavedChanges = true)
    ∧ (fireAutoSave (.error "network error") cfg2 (some fileF1) sChanged).errors
        = ["Auto-save failed: network error"]
    ∧ (fireAutoSave (.error "network error") cfg2 (some fileF1) sChanged).hasUnsavedChanges
        = true := by
  have h := persist_failure_surfaced cfg2 fileF1 sChanged "network error" 2500 "abc"
    rfl (by decide)
  refine ⟨⟨rfl, by decide, by decide⟩, ?_, ?_⟩
  · rw [h.1.1]
    decide
  · rw [h.1.2.2.1]
    decide

theorem disposeAt_length (ms : List TextModel) (i : Nat) :
    (disposeAt ms i).length = ms.length := by
  induction ms generalizing i with
  | nil => simp [disposeAt]
  | cons m ms ih =>
    cases i with
    | zero => simp [disposeAt]
    | succ n => simp [disposeAt, ih]

/-- C7 (code bug): evaluating the code at the failing input.  With
`fileB` (b.py, detected language 'python') loaded at mount, a change of
the external `currentFile` to null re-runs the creation effect: its
cleanup disposes the editor and sets the disposal flag, and its body's
guard (source line 129) sees the flag before the reset at line 132 and
returns, so no editor is recreated.  The load effect's null branch is
guarded by `editorRef.current` and therefore never runs: nothing is
cleared and the detected language stays 'python' instead of being reset
to the default 'javascript' — the editor is simply gone. -/
theorem load_null_after_file_not_reset :
    sLoadedB.language = "python"
    ∧ (currentFileChange cfg2 "vs-dark" 14 600 none false sLoadedB).editor = none
    ∧ (currentFileChange cfg2 "vs-dark" 14 600 none false sLoadedB).language = "python"
    ∧ "python" ≠ "javascript" := by
  decide

/-- C3 (amended): when `editor.setModel` throws during a load, the inner
catch logs only a console warning and returns early.  The operation
aborts with the editor's attachment and all visible state (language,
unsaved flag, pending save, persist log) unchanged and nothing on the
error channel — but `isLoading`, set at the start of the load, is left
`true`, the previous buffer has already been disposed, and the newly
created unattached buffer is retained as the current model. -/
theorem loadFile_attach_failure (cfg : Config) (t : Nat) (s : HostState)
    (e : EditorSession) (f : FileRec)
    (hed : s.editor = some e) (hdisp : s.isDisposed = false) :
    (loadFile cfg t (some f) true s).isLoading = true
    ∧ (loadFile cfg t (some f) true s).errors = s.errors
    ∧ (loadFile cfg t (some f) true s).editor = s.editor
    ∧ (loadFile cfg t (some f) true s).language = s.language
    ∧ (loadFile cfg t (some f) true s).hasUnsavedChanges = s.hasUnsavedChanges
    ∧ (loadFile cfg t (some f) true s).pendingSave = s.pendingSave
    ∧ (loadFile cfg t (some f) true s).persistLog = s.persistLog
    ∧ (loadFile cfg t (some f) true s).modelRef = some s.models.length
    ∧ (loadFile cfg t (some f) true s).models.length = s.models.length + 1 := by
  obtain ⟨ed, ms, mr, ps, dis, ld, un, lang, errs, plog⟩ := s
  simp only at hed hdisp
  subst hed hdisp
  cases mr <;> simp [loadFile, disposePrevPhase, disposeAt_length]

/-- Counterexample for C3 as stated: with `fileF1` loaded, a load of
`fileB` whose `setModel` throws does NOT leave `isLoading` false with an
error surfaced — `isLoading` stays true and the error channel stays
empty. -/
theorem loadFile_attach_failure_cex :
    ¬((loadFile cfg2 0 (some fileB) true sLoaded).isLoading = false
      ∧ (loadFile cfg2 0 (some fileB) true sLoaded).errors ≠ []) := by
  decide

/-- Witness for C3's amended theorem at the same concrete input. -/
theorem loadFile_attach_failure_witness :
    (sLoaded.editor = some eLoaded ∧ sLoaded.isDisposed = false)
    ∧ (loadFile cfg2 0 (some fileB) true sLoaded).isLoading = true
    ∧ (loadFile cfg2 0 (some fileB) true sLoaded).errors = []
    ∧ (loadFile cfg2 0 (some fileB) true sLoaded).editor = sLoaded.editor
    ∧ (loadFile cfg2 0 (some fileB) true sLoaded).modelRef = some 1
    ∧ (loadFile cfg2 0 (some fileB) true sLoaded).models.length = 2 := by
  have h := loadFile_attach_failure cfg2 0 sLoaded eLoaded fileB (by decide) (by decide)
  refine ⟨by decide, h.1, ?_, h.2.2.1, ?_, ?_⟩
  · rw [h.2.1]
    decide
  · rw [h.2.2.2.2.2.2.2.1]
    decide
  · rw [h.2.2.2.2.2.2.2.2]
    decide

/-- C5: teardown is idempotent — a second teardown is a no-op and the
host stays disposed with no pending persist, no model ref and no editor —
and every `safeDispose` release completes without raising: on a missing
resource it is a no-op, on a live resource it disposes it, and on an
already-disposed resource, where the underlying library `dispose()`
throws, the catch swallows the error and leaves the resource as it was. -/
theorem teardown_idempotent (s : HostState) (m : TextModel) (e : EditorSession) :
    teardown (teardown s) = teardown s
    ∧ (teardown s).isDisposed = true
    ∧ (teardown s).pendingSave = none
    ∧ (teardown s).modelRef = none
    ∧ (teardown s).editor = none
    ∧ safeDisposeModel none = none
    ∧ safeDisposeSession none = none
    ∧ safeDisposeModel (some m) = some { m with disposed := true }
    ∧ safeDisposeSession (some e) = some { e with disposed := true }
    ∧ (m.disposed = true →
        rawDisposeModel m = .error "TextModel already disposed"
        ∧ safeDisposeModel (some m) = some m) := by
  obtain ⟨ed, ms, mr, ps, dis, ld, un, lang, errs, plog⟩ := s
  obtain ⟨mc, mlang, md⟩ := m
  obtain ⟨ev, eth, efs, eam, edis⟩ := e
  refine ⟨?_, ?_, ?_, ?_, ?_, rfl, rfl, ?_, ?_, ?_⟩
  · cases mr <;> simp [teardown]
  · cases mr <;> simp [teardown]
  · cases mr <;> simp [teardown]
  · cases mr <;> simp [teardown]
  · cases mr <;> simp [teardown]
  · cases md <;> simp [safeDisposeModel, rawDisposeModel]
  · cases edis <;> simp [safeDisposeSession, rawDisposeSession]
  · intro hmd
    simp only at hmd
    subst hmd
    exact ⟨rfl, rfl⟩

/-- Witness for C5: double teardown of a concrete dirty state, and safe
disposal of an already-disposed model. -/
theorem teardown_idempotent_witness :
    mDead.disposed = true
    ∧ teardown (teardown sChanged) = teardown sChanged
    ∧ safeDisposeModel (some mDead) = some mDead := by
  have h := teardown_idempotent sChanged mDead eLoaded
  exact ⟨rfl, h.1, (h.2.2.2.2.2.2.2.2.2 rfl).2⟩

/-
  Helper lemmas for the single-live-model invariant (C6).
-/

theorem disposeAt_getElem (ms : List TextModel) (i j : Nat) :
    (disposeAt ms j)[i]? =
      if i = j then ms[i]?.map (fun m => { m with disposed := true })
      else ms[i]? := by
  induction ms generalizing i j with
  | nil => simp [disposeAt]
  | cons m ms ih =>
    cases j with
    | zero =>
      cases i with
      | zero => simp [disposeAt]
      | succ k => simp [disposeAt]
    | succ n =>
      cases i with
      | zero => simp [disposeAt]
      | succ k =>
        have hiff : (k + 1 = n + 1) ↔ (k = n) := by omega
        by_cases hk : k = n
        · subst hk
          simp [disposeAt, ih]
        · simp [disposeAt, ih, hk, hiff]

theorem no_live_after_disposePrev (s : HostState) (h : InvHost s) :
    ∀ (i : Nat) (m : TextModel),
      (disposePrevPhase s).models[i]? = some m → m.disposed = true := by
  intro i m hm
  cases hmr : s.modelRef with
  | none =>
    rw [disposePrevPhase, hmr] at hm
    cases hd : m.disposed with
    | true => rfl
    | false => exact absurd (h i m hm hd) (by simp [hmr])
  | some j =>
    rw [disposePrevPhase, hmr] at hm
    simp only [disposeAt_getElem] at hm
    by_cases hij : i = j
    · subst hij
      rw [if_pos rfl] at hm
      cases hmi : s.models[i]? with
      | none =>
        rw [hmi] at hm
        simp at hm
      | some m0 =>
        rw [hmi] at hm
        simp only [Option.map_some'] at hm
        have hm' := Option.some.inj hm
        rw [← hm']
    · rw [if_neg hij] at hm
      cases hd : m.disposed with
      | true => rfl
      | false =>
        have := h i m hm hd
        rw [hmr] at this
        exact absurd (Option.some.inj this).symm hij

theorem InvHost_disposePrev (s : HostState) (h : InvHost s) :
    InvHost (disposePrevPhase s) := by
  intro i m hm hd
  have ht := no_live_after_disposePrev s h i m hm
  rw [hd] at ht
  exact absurd ht (by simp)

theorem InvHost_append_fresh (ms : List TextModel)
    (new : TextModel)
    (hdead : ∀ (i : Nat) (m : TextModel), ms[i]? = some m → m.disposed = true) :
    ∀ (i : Nat) (m : TextModel), (ms ++ [new])[i]? = some m → m.disposed = false →
      (some ms.length : Option Nat) = some i := by
  intro i m hm hd
  rw [List.getElem?_append] at hm
  by_cases hi : i < ms.length
  · rw [if_pos hi] at hm
    have := hdead i m hm
    rw [hd] at this
    exact absurd this (by simp)
  · rw [if_neg hi] at hm
    have hge : ms.length ≤ i := Nat.le_of_not_lt hi
    cases hk : i - ms.length with
    | zero =>
      have : i = ms.length := by omega
      rw [this]
    | succ k =>
      rw [hk] at hm
      simp at hm

theorem InvHost_loadFile (cfg : Config) (t : Nat) (file : Option FileRec) (sm : Bool)
    (s : HostState) (h : InvHost s) : InvHost (loadFile cfg t file sm s) := by
  obtain ⟨ed, ms, mr, ps, dis, ld, un, lang, errs, plog⟩ := s
  cases ed with
  | none => cases file <;> exact h
  | some e =>
    cases file with
    | none =>
      intro i m hm hd
      cases hca : cfg.autoSave <;>
        simp only [loadFile, contentChange, hca, Bool.false_eq_true, if_false,
          if_true, reduceIte] at hm ⊢ <;>
        exact h i m hm hd
    | some f =>
      cases dis with
      | true => exact h
      | false =>
        have h1 : InvHost ⟨some e, ms, mr, ps, false, true, un, lang, errs, plog⟩ :=
          fun i m hm hd => h i m hm hd
        cases sm with
        | true =>
          exact InvHost_append_fresh
            (disposePrevPhase ⟨some e, ms, mr, ps, false, true, un, lang, errs, plog⟩).models
            ⟨f.content.getD "", getLanguageFromExtension f.name, false⟩
            (no_live_after_disposePrev _ h1)
        | false =>
          cases mr with
          | none =>
            exact InvHost_append_fresh
              (disposePrevPhase ⟨some e, ms, none, ps, false, true, un, lang, errs, plog⟩).models
              ⟨f.content.getD "", getLanguageFromExtension f.name, false⟩
              (no_live_after_disposePrev _ h1)
          | some j =>
            exact InvHost_append_fresh
              (disposePrevPhase ⟨some e, ms, some j, ps, false, true, un, lang, errs, plog⟩).models
              ⟨f.content.getD "", getLanguageFromExtension f.name, false⟩
              (no_live_after_disposePrev _ h1)

theorem InvHost_applyLoads (cfg : Config) (ops : List (Nat × Option FileRec × Bool))
    (s : HostState) (h : InvHost s) : InvHost (applyLoads cfg ops s) := by
  induction ops generalizing s with
  | nil => exact h
  | cons op ops ih =>
    simp only [applyLoads, List.foldl_cons]
    exact ih _ (InvHost_loadFile cfg op.1 op.2.1 op.2.2 s h)

theorem InvHost_initState : InvHost initState := by
  intro i m hm _
  simp [initState, creationEffect, emptyHost] at hm

theorem filter_live_le_one (l : List TextModel)
    (h : ∀ (i j : Nat) (mi mj : TextModel), l[i]? = some mi → l[j]? = some mj →
      mi.disposed = false → mj.disposed = false → i = j) :
    (l.filter (fun m => !m.disposed)).length ≤ 1 := by
  induction l with
  | nil => simp
  | cons x xs ih =>
    cases hx : x.disposed with
    | false =>
      have hxs : ∀ m ∈ xs, m.disposed = true := by
        intro m hm
        cases hd : m.disposed with
        | true => rfl
        | false =>
          obtain ⟨i, hi⟩ := List.getElem?_of_mem hm
          have := h 0 (i + 1) x m (by simp) (by simpa using hi) hx hd
          omega
      have hnil : xs.filter (fun m => !m.disposed) = [] := by
        rw [List.filter_eq_nil_iff]
        intro m hm
        simp [hxs m hm]
      simp [List.filter_cons, hx, hnil]
    | true =>
      have h' : ∀ (i j : Nat) (mi mj : TextModel), xs[i]? = some mi → xs[j]? = some mj →
          mi.disposed = false → mj.disposed = false → i = j := by
        intro i j mi mj hi hj hdi hdj
        have := h (i + 1) (j + 1) mi mj (by simpa using hi) (by simpa using hj) hdi hdj
        omega
      simpa [List.filter_cons, hx] using ih h'

theorem filter_live_nil (l : List TextModel)
    (h : ∀ (i : Nat) (m : TextModel), l[i]? = some m → m.disposed = true) :
    (l.filter (fun m => !m.disposed)).length = 0 := by
  have hnil : l.filter (fun m => !m.disposed) = [] := by
    rw [List.filter_eq_nil_iff]
    intro m hm
    obtain ⟨i, hi⟩ := List.getElem?_of_mem hm
    simp [h i m hi]
  simp [hnil]

theorem InvHost_pairwise (s : HostState) (h : InvHost s) :
    ∀ (i j : Nat) (mi mj : TextModel), s.models[i]? = some mi → s.models[j]? = some mj →
      mi.disposed = false → mj.disposed = false → i = j := by
  intro i j mi mj hi hj hdi hdj
  have h1 := h i mi hi hdi
  have h2 := h j mj hj hdj
  rw [h1] at h2
  exact Option.some.inj h2

/-- C6: across every sequence of LoadFile operations from the mounted
component, at most one TextModel is ever live, and at the intermediate
point inside a load — after the previous buffer is disposed and strictly
before the new one is created — no model is live at all, so two buffers
are never simultaneously live on the session. -/
theorem at_most_one_live_model (cfg : Config) (ops : List (Nat × Option FileRec × Bool)) :
    liveCount (applyLoads cfg ops initState) ≤ 1
    ∧ liveCount (disposePrevPhase (applyLoads cfg ops initState)) = 0 := by
  have hInv := InvHost_applyLoads cfg ops initState InvHost_initState
  constructor
  · exact filter_live_le_one _ (InvHost_pairwise _ hInv)
  · exact filter_live_nil _ (no_live_after_disposePrev _ hInv)

/-- C8 (code bug): evaluating the code at the failing input.  With an
unsaved edit `abc` in the buffer, a theme-only reconfiguration runs the
creation effect's cleanup (which disposes the editor and sets the
disposal flag) and then its body, whose guard at source line 129 sees the
flag still set — the reset at line 132 comes only after the guard — and
returns without creating a new editor.  The in-place theme and font-size
effects then find no editor.  The surface and its unsaved content `abc`
are gone, contradicting the claim that unsaved content is preserved. -/
theorem theme_change_drops_unsaved : sUnsaved.hasUnsavedChanges = true
    ∧ hostValue sUnsaved = "abc"
    ∧ (reconfigure "light" 14 sUnsaved).editor = none
    ∧ hostValue (reconfigure "light" 14 sUnsaved) = "" := by
  decide

/-
  Helper lemmas for C9: the staleness invariant is preserved by every
  event, and every persist call ever issued carries the buffer content
  current at the moment of the call.
-/

theorem stepEv_Jinv (cfg : Config) (f : FileRec) (s : HostState) (ev : Ev)
    (hauto : cfg.autoSave = true) (h : Jinv s = true) :
    Jinv (stepEv cfg (some f) s ev) = true := by
  obtain ⟨ed, ms, mr, ps, dis, ld, un, lang, errs, plog⟩ := s
  cases ed with
  | none => simp [Jinv] at h
  | some e =>
    cases ev with
    | change t c => simp [stepEv, contentChange, hauto, Jinv, hostValue]
    | save t r =>
      cases r with
      | ok u => simpa [stepEv, handleSave, Jinv, hostValue] using h
      | error msg => simpa [stepEv, handleSave, Jinv, hostValue] using h
    | fire r =>
      cases ps with
      | none => simpa [stepEv, fireAutoSave, Jinv, hostValue] using h
      | some p =>
        cases r with
        | ok u => simp [stepEv, fireAutoSave, hauto, Jinv, hostValue]
        | error msg => simp [stepEv, fireAutoSave, hauto, Jinv, hostValue]

theorem stepEv_persist_current (cfg : Config) (f : FileRec) (s : HostState) (ev : Ev)
    (hauto : cfg.autoSave = true) (h : Jinv s = true) :
    ∀ p ∈ (stepEv cfg (some f) s ev).persistLog,
      p ∈ s.persistLog ∨ p.2.2 = hostValue s := by
  obtain ⟨ed, ms, mr, ps, dis, ld, un, lang, errs, plog⟩ := s
  cases ed with
  | none => simp [Jinv] at h
  | some e =>
    cases ev with
    | change t c =>
      intro p hp
      simp only [stepEv, contentChange, hauto] at hp
      exact Or.inl hp
    | save t r =>
      intro p hp
      cases r with
      | ok u =>
        simp only [stepEv, handleSave, List.mem_append, List.mem_singleton] at hp
        rcases hp with hp | hp
        · exact Or.inl hp
        · subst hp
          exact Or.inr rfl
      | error msg =>
        simp only [stepEv, handleSave, List.mem_append, List.mem_singleton] at hp
        rcases hp with hp | hp
        · exact Or.inl hp
        · subst hp
          exact Or.inr rfl
    | fire r =>
      cases ps with
      | none =>
        intro p hp
        exact Or.inl hp
      | some pr =>
        obtain ⟨ft, c⟩ := pr
        have hc : hostValue ⟨some e, ms, mr, some (ft, c), dis, ld, un, lang, errs, plog⟩ = c := by
          simp [Jinv, hostValue] at h
          simpa [hostValue] using h
        intro p hp
        cases r with
        | ok u =>
          simp only [stepEv, fireAutoSave, hauto, List.mem_append, List.mem_singleton] at hp
          rcases hp with hp | hp
          · exact Or.inl hp
          · subst hp
            exact Or.inr hc.symm
        | error msg =>
          simp only [stepEv, fireAutoSave, hauto, List.mem_append, List.mem_singleton] at hp
          rcases hp with hp | hp
          · exact Or.inl hp
          · subst hp
            exact Or.inr hc.symm

theorem runEv_Jinv (cfg : Config) (f : FileRec) (evs : List Ev) (s : HostState)
    (hauto : cfg.autoSave = true) (h : Jinv s = true) :
    Jinv (runEv cfg (some f) s evs) = true := by
  induction evs generalizing s with
  | nil => exact h
  | cons ev evs ih =>
    simp only [runEv, List.foldl_cons]
    exact ih _ (stepEv_Jinv cfg f s ev hauto h)

theorem handleSave_logs (r : Except String Unit) (t : Nat) (f : FileRec)
    (s : HostState) (e : EditorSession) (he : s.editor = some e) :
    (handleSave r t (some f) s).persistLog
      = s.persistLog ++ [(t, f.id, hostValue s)] := by
  obtain ⟨ed, ms, mr, ps, dis, ld, un, lang, errs, plog⟩ := s
  simp only at he
  subst he
  cases r <;> simp [handleSave, hostValue]

/-- C9: after any sequence of edits, manual saves and debounce firings
with autosave on, (i) the staleness invariant holds — any pending
debounced persist carries exactly the current buffer value — (ii) a
manual Save at any moment immediately appends one persist call carrying
the buffer content current at that moment, and (iii) whatever the
pending debounced persist does afterwards, any call it adds also carries
the then-current buffer value, so it never overwrites newer content with
stale content. -/
theorem manual_save_not_stale (cfg : Config) (f : FileRec) (evs : List Ev)
    (s : HostState) (hauto : cfg.autoSave = true) (hJ : Jinv s = true) :
    Jinv (runEv cfg (some f) s evs) = true
    ∧ (∀ (t : Nat) (r : Except String Unit),
        (handleSave r t (some f) (runEv cfg (some f) s evs)).persistLog
          = (runEv cfg (some f) s evs).persistLog
            ++ [(t, f.id, hostValue (runEv cfg (some f) s evs))])
    ∧ (∀ (r : Except String Unit) (p : Nat × String × String),
        p ∈ (fireAutoSave r cfg (some f) (runEv cfg (some f) s evs)).persistLog →
        p ∈ (runEv cfg (some f) s evs).persistLog
          ∨ p.2.2 = hostValue (runEv cfg (some f) s evs)) := by
  have hJ' := runEv_Jinv cfg f evs s hauto hJ
  have hed : ∃ e, (runEv cfg (some f) s evs).editor = some e := by
    have hs := hJ'
    simp only [Jinv, Bool.and_eq_true] at hs
    exact Option.isSome_iff_exists.mp hs.1
  obtain ⟨e, he⟩ := hed
  refine ⟨hJ', ?_, ?_⟩
  · intro t r
    exact handleSave_logs r t f _ e he
  · intro r p hp
    exact stepEv_persist_current cfg f _ (Ev.fire r) hauto hJ' p hp

/-- Witness for C9: after an edit to `ab`, a manual save at t=7 logs one
immediate persist of the current buffer content. -/
theorem manual_save_not_stale_witness :
    (cfg2.autoSave = true ∧ Jinv sLoaded = true)
    ∧ Jinv (runEv cfg2 (some fileF1) sLoaded [Ev.change 0 "ab"]) = true
    ∧ (handleSave (.ok ()) 7 (some fileF1)
          (runEv cfg2 (some fileF1) sLoaded [Ev.change 0 "ab"])).persistLog
        = (runEv cfg2 (some fileF1) sLoaded [Ev.change 0 "ab"]).persistLog
          ++ [(7, fileF1.id,
                hostValue (runEv cfg2 (some fileF1) sLoaded [Ev.change 0 "ab"]))] := by
  have h := manual_save_not_stale cfg2 fileF1 [Ev.change 0 "ab"] sLoaded rfl (by decide)
  exact ⟨⟨rfl, by decide⟩, h.1, h.2.1 7 (.ok ())⟩
